import Mathlib

/-!
# Verification of the `Suite2pData` accessor object

Shallow embedding of `src/data/imagedatatools/suite2pdata/suite2pdata.py`:
a stateful read-access layer over suite2p pipeline output.  The mutable
state consists of the current plane, the per-plane neuron selection, the
shuffle flag and the two lazily populated trace caches.  Matrix values are
modelled as rationals (the accessors only move data around, they never do
float arithmetic), numpy/Python sequence indexing is modelled with its
negative-index wrap-around, and `np.random.shuffle` is modelled by an
externally supplied family of per-row index permutations.
-/

namespace Suite2p

/-- A trace matrix: a list of rows, each row a list of time samples. -/
abbrev Mat := List (List ℚ)

/-- Python/numpy single-index semantics on a sequence of length `n`:
indices in `[0, n)` are used directly, indices in `[-n, 0)` wrap to
`n + i`, everything else is an `IndexError` (`none`). -/
def normIdx (n : Nat) (i : Int) : Option Nat :=
  if 0 ≤ i then
    if i < (n : Int) then some i.toNat else none
  else
    if 0 ≤ i + (n : Int) then some (i + (n : Int)).toNat else none

/-- Python subscript read `xs[i]`. -/
def pyIdx {α : Type} (xs : List α) (i : Int) : Option α :=
  (normIdx xs.length i).bind (fun p => xs[p]?)

/-- Python subscript assignment `xs[i] = v`. -/
def pySet {α : Type} (xs : List α) (i : Int) (v : α) : Option (List α) :=
  (normIdx xs.length i).map (fun p => xs.set p v)

/-- Numpy fancy row indexing `m[sel, :]`.  Gathers the rows of `m`
at the indices of `sel` in order (duplicates give duplicate rows);
any out-of-bounds index is an `IndexError`. -/
def npGather (m : Mat) (sel : List Int) : Option Mat :=
  match sel with
  | [] => some []
  | i :: rest => do
    let row ← pyIdx m i
    let others ← npGather m rest
    pure (row :: others)

/-- The mutable state of a `Suite2pData` object after construction.
Fields mirror the `self._...` attributes of the Python class. -/
structure Suite2pData where
  nplanes : Nat
  nrois_total : List Nat
  iscell : List (List (ℚ × ℚ))
  x : List (List Int)
  y : List (List Int)
  selected_id : List (List Int)
  plane : Int
  shuffletraces : Bool
  spikes_cache : List (Option Mat)
  F_cache : List (Option Mat)
deriving Repr, DecidableEq

/-- The `plane` property setter: `self._plane = int(plane_nr)` followed by
an informational print.  There is no bounds check of any kind. -/
def setPlane (s : Suite2pData) (plane_nr : Int) : Suite2pData :=
  { s with plane := plane_nr }

/-- The `neurons` property getter:
`np.array(self._selected_id[self._plane], dtype=np.int).ravel()`. -/
def neurons (s : Suite2pData) : Option (List Int) :=
  pyIdx s.selected_id s.plane

/-- The `neurons` property setter:
`self._selected_id[self._plane] = selection.ravel()`. -/
def setNeurons (s : Suite2pData) (selection : List Int) : Option Suite2pData :=
  (pySet s.selected_id s.plane selection).map
    (fun l => { s with selected_id := l })

/-- The `nrois` property: `self._selected_id[self._plane].shape[0]`. -/
def nrois (s : Suite2pData) : Option Nat :=
  (neurons s).map List.length

/-- Model of `np.argwhere` over the rows of `tbl` (then `.ravel()` by the
`neurons` setter): the row indices satisfying `cond`, in increasing
order, as integers. -/
def argwhereRows (tbl : List (ℚ × ℚ)) (cond : ℚ × ℚ → Bool) : List Int :=
  ((List.range tbl.length).filter (fun i => cond (tbl.getD i (0, 0)))).map
    (fun (i : Nat) => (i : Int))

/-- The method `select_neurons(selector, threshold)`.  The four recognized string
selectors assign to `self.neurons` via `np.argwhere` on the current
plane's `iscell` table; any other selector falls through all four `if`s
and the method returns without touching anything.  A threshold selector
called with `threshold=None` is undefined in the source (numpy comparison
against `None`), modelled as `none`. -/
def select_neurons (s : Suite2pData) (selector : String) (threshold : Option ℚ) :
    Option Suite2pData :=
  if selector == "iscell" then do
    let tbl ← pyIdx s.iscell s.plane
    setNeurons s (argwhereRows tbl (fun r => r.1 == 1))
  else if selector == "isnotcell" then do
    let tbl ← pyIdx s.iscell s.plane
    setNeurons s (argwhereRows tbl (fun r => r.1 == 0))
  else if selector == "iscell_p_larger_than" then do
    let t ← threshold
    let tbl ← pyIdx s.iscell s.plane
    setNeurons s (argwhereRows tbl (fun r => decide (t < r.2)))
  else if selector == "iscell_p_smaller_than" then do
    let t ← threshold
    let tbl ← pyIdx s.iscell s.plane
    setNeurons s (argwhereRows tbl (fun r => decide (r.2 < t)))
  else
    some s

/-- The immutable on-disk environment: per-plane contents of `F.npy`
and `spks.npy` (indexed by the resolved plane number). -/
structure Env where
  F_file : Nat → Mat
  spks_file : Nat → Mat

/-- One application of a "random" permutation, `np.random.shuffle` on a
row: `p` lists, for every output position, the input position it reads
(out-of-range entries default to `0`; the theorems assume `p` is a genuine
permutation of `range row.length`). -/
def applyPerm (p : List Nat) (row : List ℚ) : List ℚ :=
  p.map (fun i => row.getD i 0)

/-- The loop `for ix in range(m.shape[0]): np.random.shuffle(m[ix,:])` — each row
is permuted by its own independently drawn permutation `πs ix`. -/
def shuffleRows (πs : Nat → List Nat) (m : Mat) : Mat :=
  m.mapIdx (fun ix row => applyPerm (πs ix) row)

/-- Validity of a randomness source `πs` for matrix `m`: for every row the
supplied index list is a permutation of that row's positions (which is
always true of `np.random.shuffle`). -/
def PermSupply (πs : Nat → List Nat) (m : Mat) : Prop :=
  ∀ ix, ix < m.length → (πs ix).Perm (List.range (m.getD ix []).length)

/-- The check-then-load memoization step shared by the `F` and `spikes`
accessors: `if cache[plane] is None: cache[plane] = np.load(file)`.
Returns the full matrix for the current plane, the updated cache and
whether a file read happened; `none` when the plane index itself is out
of range. -/
def loadCache (cache : List (Option Mat)) (file : Nat → Mat) (plane : Int) :
    Option (Mat × List (Option Mat) × Bool) :=
  match normIdx cache.length plane with
  | none => none
  | some p =>
    match cache.getD p none with
    | some full => some (full, cache, false)
    | none => some (file p, cache.set p (some (file p)), true)

/-- Row gather at read time:
`np.array(cache[self._plane][ self._selected_id[self._plane], : ])`. -/
def gatherSel (full : Mat) (s : Suite2pData) : Option Mat :=
  (pyIdx s.selected_id s.plane).bind (npGather full)

/-- The `F` property up to (but not including) the shuffling step:
memoized load of `F.npy` for the current plane, then row gather by the
current selection.  Returns (result, state after the call, whether the
file was read).  An exception leaves the state mutation (the cache fill)
in place, exactly as in Python. -/
def FstepCore (env : Env) (s : Suite2pData) :
    Option Mat × Suite2pData × Bool :=
  match loadCache s.F_cache env.F_file s.plane with
  | none => (none, s, false)
  | some (full, c, l) =>
    let s1 := { s with F_cache := c }
    (gatherSel full s1, s1, l)

/-- The full `F` property: `FstepCore`, then per-row shuffling of the
returned copy when `shuffletraces` is set. -/
def Fstep (env : Env) (πs : Nat → List Nat) (s : Suite2pData) :
    Option Mat × Suite2pData × Bool :=
  match FstepCore env s with
  | (r, s1, l) =>
    ((r.map fun g => if s1.shuffletraces then shuffleRows πs g else g), s1, l)

/-- The `spikes` property up to the shuffling step: memoized load of
`spks.npy`, then row gather. -/
def spikesStepCore (env : Env) (s : Suite2pData) :
    Option Mat × Suite2pData × Bool :=
  match loadCache s.spikes_cache env.spks_file s.plane with
  | none => (none, s, false)
  | some (full, c, l) =>
    let s1 := { s with spikes_cache := c }
    (gatherSel full s1, s1, l)

/-- The full `spikes` property: `spikesStepCore`, then per-row shuffling
of the returned copy when `shuffletraces` is set. -/
def spikesStep (env : Env) (πs : Nat → List Nat) (s : Suite2pData) :
    Option Mat × Suite2pData × Bool :=
  match spikesStepCore env s with
  | (r, s1, l) =>
    ((r.map fun g => if s1.shuffletraces then shuffleRows πs g else g), s1, l)

/-- The public operations a caller can interleave, for temporal claims. -/
inductive Op where
  | getF
  | getSpikes
  | opSetPlane (i : Int)
  | opSetNeurons (sel : List Int)
  | opSelectNeurons (selector : String) (threshold : Option ℚ)
  | opSetShuffle (b : Bool)
deriving Repr, DecidableEq

/-- Run one operation; besides the new state, report which plane (if any)
had its `F.npy` read and which had its `spks.npy` read during this call.
A failing operation (Python exception) keeps any state mutation that
happened before the raise, as in Python. -/
def runOp (env : Env) (πs : Nat → List Nat) (s : Suite2pData) :
    Op → Suite2pData × Option Nat × Option Nat
  | Op.getF =>
    ((Fstep env πs s).2.1,
     if (Fstep env πs s).2.2 then normIdx s.F_cache.length s.plane else none,
     none)
  | Op.getSpikes =>
    ((spikesStep env πs s).2.1,
     none,
     if (spikesStep env πs s).2.2 then normIdx s.spikes_cache.length s.plane else none)
  | Op.opSetPlane i => (setPlane s i, none, none)
  | Op.opSetNeurons sel => ((setNeurons s sel).getD s, none, none)
  | Op.opSelectNeurons sel t => ((select_neurons s sel t).getD s, none, none)
  | Op.opSetShuffle b => ({ s with shuffletraces := b }, none, none)

/-- Number of `F.npy` file reads for (resolved) plane `p` along a
sequence of operations. -/
def countFLoads (env : Env) (πs : Nat → List Nat) (s : Suite2pData)
    (ops : List Op) (p : Nat) : Nat :=
  match ops with
  | [] => 0
  | op :: rest =>
    (if (runOp env πs s op).2.1 = some p then 1 else 0) +
      countFLoads env πs (runOp env πs s op).1 rest p

/-- Number of `spks.npy` file reads for (resolved) plane `p` along a
sequence of operations. -/
def countSpikeLoads (env : Env) (πs : Nat → List Nat) (s : Suite2pData)
    (ops : List Op) (p : Nat) : Nat :=
  match ops with
  | [] => 0
  | op :: rest =>
    (if (runOp env πs s op).2.2 = some p then 1 else 0) +
      countSpikeLoads env πs (runOp env πs s op).1 rest p

/-! ## Basic lemmas about the indexing model -/

theorem normIdx_lt {n : Nat} {i : Int} {p : Nat} (h : normIdx n i = some p) :
    p < n := by
  unfold normIdx at h
  split at h <;> split at h <;> simp_all <;> omega

theorem normIdx_of_nonneg {n : Nat} {i : Int} (h0 : 0 ≤ i) (h1 : i < (n : Int)) :
    normIdx n i = some i.toNat := by
  unfold normIdx
  simp [h0, h1]

theorem pyIdx_eq {α : Type} {xs : List α} {i : Int} {p : Nat}
    (h : normIdx xs.length i = some p) : pyIdx xs i = xs[p]? := by
  unfold pyIdx
  rw [h]
  rfl

theorem pyIdx_of_nonneg {α : Type} {xs : List α} {i : Int}
    (h0 : 0 ≤ i) (h1 : i < (xs.length : Int)) :
    pyIdx xs i = xs[i.toNat]? := pyIdx_eq (normIdx_of_nonneg h0 h1)

theorem pySet_eq {α : Type} {xs : List α} {i : Int} {p : Nat} (v : α)
    (h : normIdx xs.length i = some p) : pySet xs i v = some (xs.set p v) := by
  unfold pySet
  rw [h]
  rfl

/-! ## Selection get/set lemmas -/

theorem setNeurons_eq {s : Suite2pData} {p : Nat} (ids : List Int)
    (hp : normIdx s.selected_id.length s.plane = some p) :
    setNeurons s ids = some { s with selected_id := s.selected_id.set p ids } := by
  unfold setNeurons
  rw [pySet_eq ids hp]
  rfl

theorem neurons_setNeurons {s s' : Suite2pData} {ids : List Int}
    (hp : (normIdx s.selected_id.length s.plane).isSome)
    (h : setNeurons s ids = some s') : neurons s' = some ids := by
  obtain ⟨p, hp⟩ := Option.isSome_iff_exists.mp hp
  rw [setNeurons_eq ids hp] at h
  have hs' := Option.some_inj.mp h
  have hplt : p < s.selected_id.length := normIdx_lt hp
  subst hs'
  unfold neurons
  rw [pyIdx_eq (by simpa using hp)]
  simp [List.getElem?_set_self, hplt]

theorem setNeurons_isSome {s : Suite2pData} (ids : List Int)
    (hp : (normIdx s.selected_id.length s.plane).isSome) :
    ∃ s', setNeurons s ids = some s' := by
  obtain ⟨p, hp⟩ := Option.isSome_iff_exists.mp hp
  exact ⟨_, setNeurons_eq ids hp⟩

/-- The setter `setNeurons` touches only `selected_id`. -/
theorem setNeurons_fields {s s' : Suite2pData} {ids : List Int}
    (h : setNeurons s ids = some s') :
    s'.plane = s.plane ∧ s'.F_cache = s.F_cache ∧ s'.spikes_cache = s.spikes_cache ∧
    s'.shuffletraces = s.shuffletraces ∧ s'.iscell = s.iscell ∧
    s'.nplanes = s.nplanes ∧ s'.nrois_total = s.nrois_total ∧
    s'.x = s.x ∧ s'.y = s.y ∧ s'.selected_id.length = s.selected_id.length := by
  unfold setNeurons pySet at h
  cases hn : normIdx s.selected_id.length s.plane with
  | none => rw [hn] at h; exact absurd h (by simp)
  | some p =>
    rw [hn] at h
    simp only [Option.map_some'] at h
    rw [← Option.some_inj.mp h]
    simp

/-! ## Concrete sample data (used by the witnesses) -/

/-- A small two-plane state: plane 0 has three ROIs with classification
flags `[1,0,1]` and (scaled) probabilities `[9, 2, 6]`, plane 1 has two ROIs. -/
def sampleState : Suite2pData :=
  { nplanes := 2
  , nrois_total := [3, 2]
  , iscell := [[(1, 9), (0, 2), (1, 6)], [(1, 5), (0, 5)]]
  , x := [[10, 20, 30], [1, 2]]
  , y := [[11, 21, 31], [3, 4]]
  , selected_id := [[0, 1, 2], [0, 1]]
  , plane := 0
  , shuffletraces := false
  , spikes_cache := [none, none]
  , F_cache := [none, none] }

/-- Sample on-disk trace files for the two planes. -/
def sampleEnv : Env :=
  { F_file := fun p => if p = 0 then [[1,2,3],[4,5,6],[7,8,9]] else [[10,11],[12,13]]
  , spks_file := fun p => if p = 0 then [[0,1,0],[1,0,1],[0,0,1]] else [[1,1],[0,0]] }

/-- A sample randomness supply: every row is rotated one step. -/
def samplePerms : Nat → List Nat := fun _ => [2, 0, 1]

/-! ## Claim C3 — plane setter -/

/-- C3, counterexample.  The claim says `set_current_plane(i)` with
`i >= plane_count` raises `IndexOutOfRangeError` and leaves
`current_plane` unchanged.  On `sampleState` (2 planes, current plane 0)
the setter applied to the out-of-range index 5 raises nothing and changes
`current_plane` to 5. -/
theorem plane_setter_no_validation_cex :
    sampleState.nplanes = 2 ∧ sampleState.plane = 0 ∧
    setPlane sampleState 5 = { sampleState with plane := 5 } ∧
    (setPlane sampleState 5).plane = 5 := by
  refine ⟨rfl, rfl, rfl, rfl⟩

/-- C3, amended.  The `plane` setter performs no bounds validation at
all: for every state and every integer `i` — in range or not — it simply
sets `current_plane` to `i` (and prints an informational notification),
leaving every other field unchanged; no `IndexOutOfRangeError` exists in
the code. -/
theorem plane_setter_sets_unconditionally (s : Suite2pData) (i : Int) :
    setPlane s i = { s with plane := i } := rfl

/-! ## Claim C7 — selection set/get round trip -/

/-- C7.  For every state whose current plane resolves to a valid index of
`selected_id` and every integer id list, `set_selected_neurons(ids)`
succeeds and an immediately following `get_selected_neurons()` returns
exactly `ids`, order and duplicates preserved. -/
theorem set_get_neurons_roundtrip (s : Suite2pData) (ids : List Int)
    (hp : (normIdx s.selected_id.length s.plane).isSome) :
    ∃ s', setNeurons s ids = some s' ∧ neurons s' = some ids := by
  obtain ⟨s', hs'⟩ := setNeurons_isSome ids hp
  exact ⟨s', hs', neurons_setNeurons hp hs'⟩

/-- C7, witness at `sampleState` with an unsorted duplicated id list. -/
theorem set_get_neurons_roundtrip_witness :
    (normIdx sampleState.selected_id.length sampleState.plane).isSome = true ∧
    ∃ s', setNeurons sampleState [2, 0, 2, 1] = some s' ∧
      neurons s' = some [2, 0, 2, 1] :=
  ⟨by decide, set_get_neurons_roundtrip sampleState [2, 0, 2, 1] (by decide)⟩

/-! ## Claim C9 — unrecognized selector is a silent no-op -/

theorem select_neurons_unrecognized (s : Suite2pData) (selector : String)
    (t : Option ℚ)
    (h1 : selector ≠ "iscell") (h2 : selector ≠ "isnotcell")
    (h3 : selector ≠ "iscell_p_larger_than")
    (h4 : selector ≠ "iscell_p_smaller_than") :
    select_neurons s selector t = some s := by
  simp [select_neurons, h1, h2, h3, h4]

/-- C9.  For every selector string other than the four recognized ones,
`select_neurons` raises nothing and returns the state completely
unchanged (the call falls through all four `if` branches). -/
theorem unrecognized_selector_noop (s : Suite2pData) (selector : String)
    (t : Option ℚ)
    (h1 : selector ≠ "iscell") (h2 : selector ≠ "isnotcell")
    (h3 : selector ≠ "iscell_p_larger_than")
    (h4 : selector ≠ "iscell_p_smaller_than") :
    select_neurons s selector t = some s :=
  select_neurons_unrecognized s selector t h1 h2 h3 h4

/-- C9, witness: the selector string "bogus" leaves `sampleState`
untouched. -/
theorem unrecognized_selector_noop_witness :
    select_neurons sampleState "bogus" none = some sampleState :=
  unrecognized_selector_noop sampleState "bogus" none
    (by decide) (by decide) (by decide) (by decide)

/-! ## Lemmas about `argwhereRows` (the `np.argwhere` model) -/

theorem argwhereRows_mem (tbl : List (ℚ × ℚ)) (cond : ℚ × ℚ → Bool) (j : Nat) :
    ((j : Int) ∈ argwhereRows tbl cond) ↔
      (j < tbl.length ∧ cond (tbl.getD j (0, 0)) = true) := by
  unfold argwhereRows
  constructor
  · intro hmem
    obtain ⟨a, ha, hcast⟩ := List.mem_map.mp hmem
    have haj : a = j := by exact_mod_cast hcast
    subst haj
    have h2 := List.mem_filter.mp ha
    exact ⟨List.mem_range.mp h2.1, h2.2⟩
  · intro ⟨hj, hc⟩
    exact List.mem_map.mpr ⟨j, List.mem_filter.mpr ⟨List.mem_range.mpr hj, hc⟩, rfl⟩

theorem argwhereRows_mem_row (tbl : List (ℚ × ℚ)) (cond : ℚ × ℚ → Bool) (j : Nat) :
    ((j : Int) ∈ argwhereRows tbl cond) ↔ ∃ r, tbl[j]? = some r ∧ cond r = true := by
  rw [argwhereRows_mem]
  constructor
  · intro ⟨hj, hc⟩
    refine ⟨tbl[j], List.getElem?_eq_getElem hj, ?_⟩
    rwa [List.getD_eq_getElem tbl (0, 0) hj] at hc
  · intro ⟨r, hr, hc⟩
    have hj : j < tbl.length := by
      by_contra hge
      rw [List.getElem?_eq_none (by omega)] at hr
      exact absurd hr (by simp)
    refine ⟨hj, ?_⟩
    rw [List.getD_eq_getElem tbl (0, 0) hj]
    have : tbl[j] = r := by
      have h2 := List.getElem?_eq_getElem hj
      rw [h2] at hr
      exact Option.some_inj.mp hr
    rwa [this]

theorem argwhereRows_bounds (tbl : List (ℚ × ℚ)) (cond : ℚ × ℚ → Bool) :
    ∀ i ∈ argwhereRows tbl cond, 0 ≤ i ∧ i < (tbl.length : Int) := by
  intro i hi
  unfold argwhereRows at hi
  obtain ⟨a, ha, rfl⟩ := List.mem_map.mp hi
  have h2 := List.mem_range.mp (List.mem_filter.mp ha).1
  exact ⟨Int.ofNat_nonneg a, by exact_mod_cast h2⟩

theorem argwhereRows_sorted (tbl : List (ℚ × ℚ)) (cond : ℚ × ℚ → Bool) :
    (argwhereRows tbl cond).Pairwise (· < ·) := by
  unfold argwhereRows
  have h1 : ((List.range tbl.length).filter
      (fun i => cond (tbl.getD i (0, 0)))).Pairwise (· < ·) :=
    (List.pairwise_lt_range tbl.length).sublist
      (List.filter_sublist (List.range tbl.length))
  have h2 : ((List.range tbl.length).filter
      (fun i => cond (tbl.getD i (0, 0)))).Pairwise
      (fun (a b : Nat) => (a : Int) < (b : Int)) :=
    h1.imp (fun {a b} hab => Int.ofNat_lt.mpr hab)
  exact List.pairwise_map.mpr h2

/-! ## Reduction of `select_neurons` at each recognized selector -/

theorem select_neurons_iscell (s : Suite2pData) (t : Option ℚ) :
    select_neurons s "iscell" t =
      (pyIdx s.iscell s.plane).bind
        (fun tbl => setNeurons s (argwhereRows tbl (fun r => r.1 == 1))) := by
  simp [select_neurons]

theorem select_neurons_isnotcell (s : Suite2pData) (t : Option ℚ) :
    select_neurons s "isnotcell" t =
      (pyIdx s.iscell s.plane).bind
        (fun tbl => setNeurons s (argwhereRows tbl (fun r => r.1 == 0))) := by
  simp [select_neurons]

theorem select_neurons_larger (s : Suite2pData) (th : Option ℚ) :
    select_neurons s "iscell_p_larger_than" th =
      th.bind (fun t => (pyIdx s.iscell s.plane).bind
        (fun tbl => setNeurons s (argwhereRows tbl (fun r => decide (t < r.2))))) := by
  simp [select_neurons]

theorem select_neurons_smaller (s : Suite2pData) (th : Option ℚ) :
    select_neurons s "iscell_p_smaller_than" th =
      th.bind (fun t => (pyIdx s.iscell s.plane).bind
        (fun tbl => setNeurons s (argwhereRows tbl (fun r => decide (r.2 < t))))) := by
  simp [select_neurons]

theorem setNeurons_some_isSome {s s' : Suite2pData} {ids : List Int}
    (h : setNeurons s ids = some s') :
    (normIdx s.selected_id.length s.plane).isSome := by
  unfold setNeurons pySet at h
  cases hn : normIdx s.selected_id.length s.plane with
  | none => rw [hn] at h; exact absurd h (by simp)
  | some p => simp

/-- What holds of the selection after any of the four policy selectors. -/
theorem neurons_after_argwhere {s s' : Suite2pData} {tbl : List (ℚ × ℚ)}
    {cond : ℚ × ℚ → Bool} {n : Nat} (hlen : tbl.length = n)
    (h : setNeurons s (argwhereRows tbl cond) = some s') :
    ∃ ids, neurons s' = some ids ∧ ids.Pairwise (· < ·) ∧
      ∀ i ∈ ids, 0 ≤ i ∧ i < (n : Int) := by
  refine ⟨argwhereRows tbl cond, neurons_setNeurons (setNeurons_some_isSome h) h,
    argwhereRows_sorted tbl cond, ?_⟩
  intro i hi
  have := argwhereRows_bounds tbl cond i hi
  omega

/-! ## Claim C5 — `iscell` / `isnotcell` selection -/

/-- C5.  `select_neurons("iscell")` replaces the current plane's
selection with exactly the ROI indices whose classification flag
(column 0) equals 1, and `select_neurons("isnotcell")` with exactly those
whose flag equals 0 — the complement among all ROI indices when the flags
are binary. -/
theorem select_iscell_isnotcell_spec (s : Suite2pData) (tbl : List (ℚ × ℚ))
    (htbl : pyIdx s.iscell s.plane = some tbl)
    (hp : (normIdx s.selected_id.length s.plane).isSome)
    (hbin : ∀ r ∈ tbl, r.1 = 0 ∨ r.1 = 1) :
    ∃ s₁ ids₁ s₂ ids₂,
      select_neurons s "iscell" none = some s₁ ∧ neurons s₁ = some ids₁ ∧
      select_neurons s "isnotcell" none = some s₂ ∧ neurons s₂ = some ids₂ ∧
      (∀ j : Nat, ((j : Int) ∈ ids₁ ↔ ∃ r, tbl[j]? = some r ∧ r.1 = 1)) ∧
      (∀ j : Nat, ((j : Int) ∈ ids₂ ↔ ∃ r, tbl[j]? = some r ∧ r.1 = 0)) ∧
      (∀ i ∈ ids₁, 0 ≤ i) ∧ (∀ i ∈ ids₂, 0 ≤ i) ∧
      (∀ j : Nat, j < tbl.length → (((j : Int) ∈ ids₂) ↔ ¬((j : Int) ∈ ids₁))) := by
  obtain ⟨s₁, hs₁⟩ := setNeurons_isSome (argwhereRows tbl (fun r => r.1 == 1)) hp
  obtain ⟨s₂, hs₂⟩ := setNeurons_isSome (argwhereRows tbl (fun r => r.1 == 0)) hp
  refine ⟨s₁, argwhereRows tbl (fun r => r.1 == 1),
          s₂, argwhereRows tbl (fun r => r.1 == 0), ?_, ?_, ?_, ?_, ?_, ?_, ?_, ?_, ?_⟩
  · rw [select_neurons_iscell, htbl, Option.some_bind]
    exact hs₁
  · exact neurons_setNeurons hp hs₁
  · rw [select_neurons_isnotcell, htbl, Option.some_bind]
    exact hs₂
  · exact neurons_setNeurons hp hs₂
  · intro j
    rw [argwhereRows_mem_row]
    simp
  · intro j
    rw [argwhereRows_mem_row]
    simp
  · intro i hi
    exact (argwhereRows_bounds tbl _ i hi).1
  · intro i hi
    exact (argwhereRows_bounds tbl _ i hi).1
  · intro j hj
    rw [argwhereRows_mem tbl (fun r => r.1 == 0) j,
      argwhereRows_mem tbl (fun r => r.1 == 1) j]
    have hmem : tbl.getD j (0, 0) ∈ tbl := by
      rw [List.getD_eq_getElem tbl (0, 0) hj]
      exact List.getElem_mem hj
    rcases hbin _ hmem with h0 | h1
    · rw [List.getD_eq_getElem tbl (0, 0) hj] at h0
      simp [hj, h0]
    · rw [List.getD_eq_getElem tbl (0, 0) hj] at h1
      simp [hj, h1]

/-- C5, witness at plane 0 of `sampleState` (flags `[1,0,1]`). -/
theorem select_iscell_isnotcell_spec_witness :
    (pyIdx sampleState.iscell sampleState.plane =
      some [(1, 9), (0, 2), (1, 6)]) ∧
    (normIdx sampleState.selected_id.length sampleState.plane).isSome = true ∧
    (∀ r ∈ [((1 : ℚ), (9 : ℚ)), (0, 2), (1, 6)], r.1 = 0 ∨ r.1 = 1) ∧
    (∃ s₁ ids₁ s₂ ids₂,
      select_neurons sampleState "iscell" none = some s₁ ∧
      neurons s₁ = some ids₁ ∧
      select_neurons sampleState "isnotcell" none = some s₂ ∧
      neurons s₂ = some ids₂ ∧
      (∀ j : Nat, ((j : Int) ∈ ids₁ ↔
        ∃ r, [((1 : ℚ), (9 : ℚ)), (0, 2), (1, 6)][j]? = some r ∧ r.1 = 1)) ∧
      (∀ j : Nat, ((j : Int) ∈ ids₂ ↔
        ∃ r, [((1 : ℚ), (9 : ℚ)), (0, 2), (1, 6)][j]? = some r ∧ r.1 = 0)) ∧
      (∀ i ∈ ids₁, 0 ≤ i) ∧ (∀ i ∈ ids₂, 0 ≤ i) ∧
      (∀ j : Nat, j < ([((1 : ℚ), (9 : ℚ)), (0, 2), (1, 6)]).length →
        (((j : Int) ∈ ids₂) ↔ ¬((j : Int) ∈ ids₁)))) :=
  ⟨by decide, by decide, by decide,
    select_iscell_isnotcell_spec sampleState _ (by decide) (by decide) (by decide)⟩

/-! ## Claim C6 — strict threshold selection -/

/-- C6.  `select_neurons("iscell_p_larger_than", t)` selects exactly the
indices with classification probability (column 1) strictly greater than
`t`, `select_neurons("iscell_p_smaller_than", t)` exactly those strictly
smaller; an index with probability equal to `t` is excluded by both. -/
theorem select_threshold_strict_spec (s : Suite2pData) (tbl : List (ℚ × ℚ))
    (t : ℚ) (htbl : pyIdx s.iscell s.plane = some tbl)
    (hp : (normIdx s.selected_id.length s.plane).isSome) :
    ∃ s₁ ids₁ s₂ ids₂,
      select_neurons s "iscell_p_larger_than" (some t) = some s₁ ∧
      neurons s₁ = some ids₁ ∧
      select_neurons s "iscell_p_smaller_than" (some t) = some s₂ ∧
      neurons s₂ = some ids₂ ∧
      (∀ j : Nat, ((j : Int) ∈ ids₁ ↔ ∃ r, tbl[j]? = some r ∧ t < r.2)) ∧
      (∀ j : Nat, ((j : Int) ∈ ids₂ ↔ ∃ r, tbl[j]? = some r ∧ r.2 < t)) ∧
      (∀ j : Nat, ∀ r, tbl[j]? = some r → r.2 = t →
        ¬((j : Int) ∈ ids₁) ∧ ¬((j : Int) ∈ ids₂)) := by
  obtain ⟨s₁, hs₁⟩ := setNeurons_isSome (argwhereRows tbl (fun r => decide (t < r.2))) hp
  obtain ⟨s₂, hs₂⟩ := setNeurons_isSome (argwhereRows tbl (fun r => decide (r.2 < t))) hp
  refine ⟨s₁, argwhereRows tbl (fun r => decide (t < r.2)),
          s₂, argwhereRows tbl (fun r => decide (r.2 < t)), ?_, ?_, ?_, ?_, ?_, ?_, ?_⟩
  · rw [select_neurons_larger, Option.some_bind, htbl, Option.some_bind]
    exact hs₁
  · exact neurons_setNeurons hp hs₁
  · rw [select_neurons_smaller, Option.some_bind, htbl, Option.some_bind]
    exact hs₂
  · exact neurons_setNeurons hp hs₂
  · intro j
    rw [argwhereRows_mem_row]
    simp
  · intro j
    rw [argwhereRows_mem_row]
    simp
  · intro j r hr hrt
    constructor
    · rw [argwhereRows_mem_row]
      rintro ⟨r', hr', hc⟩
      rw [hr] at hr'
      have : r = r' := Option.some_inj.mp hr'
      subst this
      rw [hrt] at hc
      simp at hc
    · rw [argwhereRows_mem_row]
      rintro ⟨r', hr', hc⟩
      rw [hr] at hr'
      have : r = r' := Option.some_inj.mp hr'
      subst this
      rw [hrt] at hc
      simp at hc

/-- C6, witness at plane 0 of `sampleState` with threshold `6`:
scaled probabilities `[9, 2, 6]`, so `6` sits exactly on the boundary
and is excluded by both selectors. -/
theorem select_threshold_strict_spec_witness :
    (pyIdx sampleState.iscell sampleState.plane =
      some [(1, 9), (0, 2), (1, 6)]) ∧
    (normIdx sampleState.selected_id.length sampleState.plane).isSome = true ∧
    (∃ s₁ ids₁ s₂ ids₂,
      select_neurons sampleState "iscell_p_larger_than" (some 6) = some s₁ ∧
      neurons s₁ = some ids₁ ∧
      select_neurons sampleState "iscell_p_smaller_than" (some 6) = some s₂ ∧
      neurons s₂ = some ids₂ ∧
      (∀ j : Nat, ((j : Int) ∈ ids₁ ↔
        ∃ r, [((1 : ℚ), (9 : ℚ)), (0, 2), (1, 6)][j]? = some r ∧ 6 < r.2)) ∧
      (∀ j : Nat, ((j : Int) ∈ ids₂ ↔
        ∃ r, [((1 : ℚ), (9 : ℚ)), (0, 2), (1, 6)][j]? = some r ∧ r.2 < 6)) ∧
      (∀ j : Nat, ∀ r,
        [((1 : ℚ), (9 : ℚ)), (0, 2), (1, 6)][j]? = some r → r.2 = 6 →
        ¬((j : Int) ∈ ids₁) ∧ ¬((j : Int) ∈ ids₂))) :=
  ⟨by decide, by decide,
    select_threshold_strict_spec sampleState _ 6 (by decide) (by decide)⟩

/-! ## Claim C10 — invariants established by the policy selectors -/

/-- C10.  After any successful `select_neurons` call with one of the four
recognized selectors, the current plane's selection is strictly
increasing (hence sorted and duplicate-free) and every selected id is a
valid index: nonnegative and below the plane's total ROI count (assuming
the data-model invariant that the classification table has one row per
ROI). -/
theorem select_neurons_selection_invariant (s s' : Suite2pData)
    (selector : String) (t : Option ℚ) (tbl : List (ℚ × ℚ)) (n : Nat)
    (hsel : selector = "iscell" ∨ selector = "isnotcell" ∨
            selector = "iscell_p_larger_than" ∨
            selector = "iscell_p_smaller_than")
    (htbl : pyIdx s.iscell s.plane = some tbl)
    (_hn : pyIdx s.nrois_total s.plane = some n)
    (hlen : tbl.length = n)
    (h : select_neurons s selector t = some s') :
    ∃ ids, neurons s' = some ids ∧ ids.Pairwise (· < ·) ∧
      ∀ i ∈ ids, 0 ≤ i ∧ i < (n : Int) := by
  rcases hsel with rfl | rfl | rfl | rfl
  · rw [select_neurons_iscell, htbl, Option.some_bind] at h
    exact neurons_after_argwhere hlen h
  · rw [select_neurons_isnotcell, htbl, Option.some_bind] at h
    exact neurons_after_argwhere hlen h
  · cases t with
    | none =>
      rw [select_neurons_larger, Option.none_bind] at h
      exact absurd h (by simp)
    | some t' =>
      rw [select_neurons_larger, Option.some_bind, htbl, Option.some_bind] at h
      exact neurons_after_argwhere hlen h
  · cases t with
    | none =>
      rw [select_neurons_smaller, Option.none_bind] at h
      exact absurd h (by simp)
    | some t' =>
      rw [select_neurons_smaller, Option.some_bind, htbl, Option.some_bind] at h
      exact neurons_after_argwhere hlen h

/-- C10, witness: `select_neurons("iscell")` on `sampleState`. -/
theorem select_neurons_selection_invariant_witness :
    ("iscell" = "iscell" ∨ "iscell" = "isnotcell" ∨
     "iscell" = "iscell_p_larger_than" ∨ "iscell" = "iscell_p_smaller_than") ∧
    (pyIdx sampleState.iscell sampleState.plane =
      some [(1, 9), (0, 2), (1, 6)]) ∧
    (pyIdx sampleState.nrois_total sampleState.plane = some 3) ∧
    (select_neurons sampleState "iscell" none =
      some { sampleState with selected_id := [[0, 2], [0, 1]] }) ∧
    (∃ ids, neurons { sampleState with selected_id := [[0, 2], [0, 1]] } = some ids ∧
      ids.Pairwise (· < ·) ∧ ∀ i ∈ ids, 0 ≤ i ∧ i < (3 : Int)) :=
  ⟨Or.inl rfl, by decide, by decide, by decide,
    select_neurons_selection_invariant sampleState
      { sampleState with selected_id := [[0, 2], [0, 1]] }
      "iscell" none [(1, 9), (0, 2), (1, 6)] 3
      (Or.inl rfl) (by decide) (by decide) (by decide) (by decide)⟩

/-! ## List helper lemmas for caches -/

theorem getD_set_self {α : Type} (l : List (Option α)) (p : Nat) (v : Option α)
    (h : p < l.length) : (l.set p v).getD p none = v := by
  rw [List.getD_eq_getElem?_getD, List.getElem?_set_self h]
  simp

theorem getD_set_ne {α : Type} (l : List (Option α)) {p q : Nat} (v : Option α)
    (h : q ≠ p) : (l.set p v).getD q none = l.getD q none := by
  rw [List.getD_eq_getElem?_getD, List.getElem?_set_ne (by omega),
    ← List.getD_eq_getElem?_getD]

/-! ## Lemmas about `npGather` -/

theorem npGather_spec {m : Mat} {sel : List Int} {r : Mat}
    (h : npGather m sel = some r) :
    r.length = sel.length ∧
      ∀ k, k < sel.length → r[k]? = pyIdx m (sel.getD k 0) := by
  induction sel generalizing r with
  | nil =>
    have hr : r = [] := (Option.some_inj.mp h).symm
    subst hr
    exact ⟨rfl, by intro k hk; simp at hk⟩
  | cons i rest ih =>
    unfold npGather at h
    cases hrow : pyIdx m i with
    | none => rw [hrow] at h; exact absurd h (by simp)
    | some row =>
      cases hrest : npGather m rest with
      | none => rw [hrow, hrest] at h; exact absurd h (by simp)
      | some others =>
        rw [hrow, hrest] at h
        have hr : r = row :: others := (Option.some_inj.mp h).symm
        subst hr
        obtain ⟨hlen, hget⟩ := ih hrest
        refine ⟨by simp [hlen], ?_⟩
        intro k hk
        cases k with
        | zero =>
          rw [List.getElem?_cons_zero, List.getD_cons_zero]
          exact hrow.symm
        | succ k' =>
          simp only [List.getElem?_cons_succ, List.getD_cons_succ]
          exact hget k' (by simpa using hk)

theorem npGather_isSome {m : Mat} {sel : List Int}
    (h : ∀ i ∈ sel, 0 ≤ i ∧ i < (m.length : Int)) :
    ∃ r, npGather m sel = some r := by
  induction sel with
  | nil => exact ⟨[], rfl⟩
  | cons i rest ih =>
    obtain ⟨h0, hlt⟩ := h i (List.mem_cons_self i rest)
    obtain ⟨others, hothers⟩ := ih (fun j hj => h j (List.mem_cons_of_mem i hj))
    have hnat : i.toNat < m.length := by omega
    refine ⟨m[i.toNat] :: others, ?_⟩
    unfold npGather
    rw [pyIdx_of_nonneg h0 hlt, List.getElem?_eq_getElem hnat, hothers]
    rfl

theorem npGather_rows {m : Mat} {sel : List Int} {r : Mat}
    (h : npGather m sel = some r) : ∀ row ∈ r, row ∈ m := by
  induction sel generalizing r with
  | nil =>
    have hr : r = [] := (Option.some_inj.mp h).symm
    subst hr
    simp
  | cons i rest ih =>
    unfold npGather at h
    cases hrow : pyIdx m i with
    | none => rw [hrow] at h; exact absurd h (by simp)
    | some row =>
      cases hrest : npGather m rest with
      | none => rw [hrow, hrest] at h; exact absurd h (by simp)
      | some others =>
        rw [hrow, hrest] at h
        have hr : r = row :: others := (Option.some_inj.mp h).symm
        subst hr
        intro row2 hrow2
        rcases List.mem_cons.mp hrow2 with rfl | hmem
        · unfold pyIdx at hrow
          cases hn : normIdx m.length i with
          | none => rw [hn] at hrow; exact absurd hrow (by simp)
          | some p =>
            rw [hn] at hrow
            exact List.getElem?_mem hrow
        · exact ih hrest row2 hmem

/-! ## Lemmas about `loadCache` -/

theorem loadCache_eq_some {cache : List (Option Mat)} {file : Nat → Mat}
    {plane : Int} {p : Nat} (hn : normIdx cache.length plane = some p) :
    loadCache cache file plane =
      (match cache.getD p none with
       | some full => some (full, cache, false)
       | none => some (file p, cache.set p (some (file p)), true)) := by
  unfold loadCache
  rw [hn]

theorem loadCache_cases {cache : List (Option Mat)} {file : Nat → Mat}
    {plane : Int} {full : Mat} {c : List (Option Mat)} {l : Bool}
    (h : loadCache cache file plane = some (full, c, l)) :
    ∃ p, normIdx cache.length plane = some p ∧ c.length = cache.length ∧
      c.getD p none = some full ∧
      ((l = false ∧ c = cache ∧ cache.getD p none = some full) ∨
       (l = true ∧ cache.getD p none = none ∧ full = file p ∧
         c = cache.set p (some (file p)))) := by
  unfold loadCache at h
  split at h
  · exact absurd h (by simp)
  · rename_i p hn
    split at h
    · rename_i full2 hc
      simp only [Option.some.injEq, Prod.mk.injEq] at h
      obtain ⟨h1, h2, h3⟩ := h
      subst h1; subst h2; subst h3
      exact ⟨p, hn, rfl, hc, Or.inl ⟨rfl, rfl, hc⟩⟩
    · rename_i hc
      simp only [Option.some.injEq, Prod.mk.injEq] at h
      obtain ⟨h1, h2, h3⟩ := h
      subst h1; subst h2; subst h3
      refine ⟨p, hn, by simp, ?_, Or.inr ⟨rfl, hc, rfl, rfl⟩⟩
      exact getD_set_self cache p _ (normIdx_lt hn)

theorem loadCache_idem {cache : List (Option Mat)} {file : Nat → Mat}
    {plane : Int} {full : Mat} {c : List (Option Mat)} {l : Bool}
    (h : loadCache cache file plane = some (full, c, l)) :
    loadCache c file plane = some (full, c, false) := by
  obtain ⟨p, hn, hlen, hcp, _⟩ := loadCache_cases h
  have hn2 : normIdx c.length plane = some p := by rw [hlen]; exact hn
  rw [loadCache_eq_some hn2, hcp]

theorem loadCache_mono {cache : List (Option Mat)} {file : Nat → Mat}
    {plane : Int} {full : Mat} {c : List (Option Mat)} {l : Bool} {q : Nat}
    {m : Mat} (h : loadCache cache file plane = some (full, c, l))
    (hq : cache.getD q none = some m) : c.getD q none = some m := by
  obtain ⟨p, hn, hlen, hcp, hbr⟩ := loadCache_cases h
  rcases hbr with ⟨_, rfl, _⟩ | ⟨_, hnone, _, rfl⟩
  · exact hq
  · have hne : q ≠ p := by
      intro hqp
      rw [hqp, hnone] at hq
      exact absurd hq (by simp)
    rw [getD_set_ne cache _ hne]
    exact hq

/-! ## Lemmas about the accessor step functions -/

theorem FstepCore_def {env : Env} {s : Suite2pData} {full : Mat}
    {c : List (Option Mat)} {l : Bool}
    (hl : loadCache s.F_cache env.F_file s.plane = some (full, c, l)) :
    FstepCore env s =
      (gatherSel full { s with F_cache := c }, { s with F_cache := c }, l) := by
  unfold FstepCore
  rw [hl]

theorem FstepCore_inv {env : Env} {s : Suite2pData} {r : Option Mat}
    {s1 : Suite2pData} {l : Bool} (h : FstepCore env s = (r, s1, l)) :
    (loadCache s.F_cache env.F_file s.plane = none ∧
      r = none ∧ s1 = s ∧ l = false) ∨
    (∃ full c, loadCache s.F_cache env.F_file s.plane = some (full, c, l) ∧
      s1 = { s with F_cache := c } ∧ r = gatherSel full s1) := by
  unfold FstepCore at h
  split at h
  · rename_i hl
    simp only [Prod.mk.injEq] at h
    obtain ⟨h1, h2, h3⟩ := h
    exact Or.inl ⟨hl, h1.symm, h2.symm, h3.symm⟩
  · rename_i full c l2 hl
    simp only [Prod.mk.injEq] at h
    obtain ⟨h1, h2, h3⟩ := h
    subst h3
    subst h2
    exact Or.inr ⟨full, c, hl, rfl, h1.symm⟩

theorem FstepCore_fields {env : Env} {s : Suite2pData} {r : Option Mat}
    {s1 : Suite2pData} {l : Bool} (h : FstepCore env s = (r, s1, l)) :
    s1.plane = s.plane ∧ s1.selected_id = s.selected_id ∧
    s1.shuffletraces = s.shuffletraces ∧ s1.spikes_cache = s.spikes_cache ∧
    s1.iscell = s.iscell ∧ s1.nplanes = s.nplanes ∧
    s1.F_cache.length = s.F_cache.length := by
  rcases FstepCore_inv h with ⟨_, _, rfl, _⟩ | ⟨full, c, hl, rfl, _⟩
  · exact ⟨rfl, rfl, rfl, rfl, rfl, rfl, rfl⟩
  · obtain ⟨p, hn, hlen, _⟩ := loadCache_cases hl
    exact ⟨rfl, rfl, rfl, rfl, rfl, rfl, hlen⟩

theorem FstepCore_idem {env : Env} {s : Suite2pData} {g : Mat}
    {s1 : Suite2pData} {l : Bool} (h : FstepCore env s = (some g, s1, l)) :
    FstepCore env s1 = (some g, s1, false) := by
  rcases FstepCore_inv h with ⟨_, hr, _, _⟩ | ⟨full, c, hl, hs1, hr⟩
  · exact absurd hr (by simp)
  · have hl2 : loadCache s1.F_cache env.F_file s1.plane = some (full, c, false) := by
      rw [hs1]
      exact loadCache_idem hl
    have h3 := FstepCore_def hl2
    have hX : ({ s1 with F_cache := c } : Suite2pData) = s1 := by rw [hs1]
    rw [hX] at h3
    rw [h3, ← hr]

theorem Fstep_eq {env : Env} {πs : Nat → List Nat} {s : Suite2pData}
    {r : Option Mat} {s1 : Suite2pData} {l : Bool}
    (h : FstepCore env s = (r, s1, l)) :
    Fstep env πs s =
      ((r.map fun g => if s1.shuffletraces then shuffleRows πs g else g), s1, l) := by
  unfold Fstep
  rw [h]

theorem spikesStepCore_def {env : Env} {s : Suite2pData} {full : Mat}
    {c : List (Option Mat)} {l : Bool}
    (hl : loadCache s.spikes_cache env.spks_file s.plane = some (full, c, l)) :
    spikesStepCore env s =
      (gatherSel full { s with spikes_cache := c },
        { s with spikes_cache := c }, l) := by
  unfold spikesStepCore
  rw [hl]

theorem spikesStepCore_inv {env : Env} {s : Suite2pData} {r : Option Mat}
    {s1 : Suite2pData} {l : Bool} (h : spikesStepCore env s = (r, s1, l)) :
    (loadCache s.spikes_cache env.spks_file s.plane = none ∧
      r = none ∧ s1 = s ∧ l = false) ∨
    (∃ full c, loadCache s.spikes_cache env.spks_file s.plane = some (full, c, l) ∧
      s1 = { s with spikes_cache := c } ∧ r = gatherSel full s1) := by
  unfold spikesStepCore at h
  split at h
  · rename_i hl
    simp only [Prod.mk.injEq] at h
    obtain ⟨h1, h2, h3⟩ := h
    exact Or.inl ⟨hl, h1.symm, h2.symm, h3.symm⟩
  · rename_i full c l2 hl
    simp only [Prod.mk.injEq] at h
    obtain ⟨h1, h2, h3⟩ := h
    subst h3
    subst h2
    exact Or.inr ⟨full, c, hl, rfl, h1.symm⟩

theorem spikesStepCore_fields {env : Env} {s : Suite2pData} {r : Option Mat}
    {s1 : Suite2pData} {l : Bool} (h : spikesStepCore env s = (r, s1, l)) :
    s1.plane = s.plane ∧ s1.selected_id = s.selected_id ∧
    s1.shuffletraces = s.shuffletraces ∧ s1.F_cache = s.F_cache ∧
    s1.iscell = s.iscell ∧ s1.nplanes = s.nplanes ∧
    s1.spikes_cache.length = s.spikes_cache.length := by
  rcases spikesStepCore_inv h with ⟨_, _, rfl, _⟩ | ⟨full, c, hl, rfl, _⟩
  · exact ⟨rfl, rfl, rfl, rfl, rfl, rfl, rfl⟩
  · obtain ⟨p, hn, hlen, _⟩ := loadCache_cases hl
    exact ⟨rfl, rfl, rfl, rfl, rfl, rfl, hlen⟩

theorem spikesStepCore_idem {env : Env} {s : Suite2pData} {g : Mat}
    {s1 : Suite2pData} {l : Bool} (h : spikesStepCore env s = (some g, s1, l)) :
    spikesStepCore env s1 = (some g, s1, false) := by
  rcases spikesStepCore_inv h with ⟨_, hr, _, _⟩ | ⟨full, c, hl, hs1, hr⟩
  · exact absurd hr (by simp)
  · have hl2 : loadCache s1.spikes_cache env.spks_file s1.plane =
        some (full, c, false) := by
      rw [hs1]
      exact loadCache_idem hl
    have h3 := spikesStepCore_def hl2
    have hX : ({ s1 with spikes_cache := c } : Suite2pData) = s1 := by rw [hs1]
    rw [hX] at h3
    rw [h3, ← hr]

theorem spikesStep_eq {env : Env} {πs : Nat → List Nat} {s : Suite2pData}
    {r : Option Mat} {s1 : Suite2pData} {l : Bool}
    (h : spikesStepCore env s = (r, s1, l)) :
    spikesStep env πs s =
      ((r.map fun g => if s1.shuffletraces then shuffleRows πs g else g), s1, l) := by
  unfold spikesStep
  rw [h]

/-! ## Lemmas about the shuffling model -/

theorem shuffleRows_length (πs : Nat → List Nat) (m : Mat) :
    (shuffleRows πs m).length = m.length := by
  simp [shuffleRows]

theorem shuffleRows_getElem? (πs : Nat → List Nat) (m : Mat) (k : Nat) :
    (shuffleRows πs m)[k]? = (m[k]?).map (applyPerm (πs k)) := by
  simp [shuffleRows, List.getElem?_mapIdx]

theorem applyPerm_range (row : List ℚ) :
    applyPerm (List.range row.length) row = row := by
  unfold applyPerm
  apply List.ext_getElem
  · simp
  · intro n h1 h2
    simp [List.getD_eq_getElem?_getD, List.getElem?_eq_getElem h2]

theorem applyPerm_perm {p : List Nat} {row : List ℚ}
    (h : p.Perm (List.range row.length)) : (applyPerm p row).Perm row := by
  have h1 : (applyPerm p row).Perm (applyPerm (List.range row.length) row) :=
    (h.map (fun i => row.getD i 0))
  rwa [applyPerm_range] at h1

theorem applyPerm_length {p : List Nat} {row : List ℚ}
    (h : p.Perm (List.range row.length)) :
    (applyPerm p row).length = row.length := by
  unfold applyPerm
  rw [List.length_map, h.length_eq, List.length_range]

theorem shuffleRows_getD {πs : Nat → List Nat} {m : Mat} {k : Nat}
    (hk : k < m.length) :
    (shuffleRows πs m).getD k [] = applyPerm (πs k) m[k] := by
  have h1 : (shuffleRows πs m)[k]? = some (applyPerm (πs k) m[k]) := by
    rw [shuffleRows_getElem?, List.getElem?_eq_getElem hk]
    rfl
  rw [List.getD_eq_getElem?_getD, h1]
  rfl

theorem shuffleRows_row_perm {πs : Nat → List Nat} {m : Mat}
    (h : PermSupply πs m) (k : Nat) (hk : k < m.length) :
    ((shuffleRows πs m).getD k []).Perm (m.getD k []) := by
  rw [shuffleRows_getD hk, List.getD_eq_getElem m [] hk]
  apply applyPerm_perm
  have h3 := h k hk
  rwa [List.getD_eq_getElem m [] hk] at h3

theorem shuffleRows_getD_length {πs : Nat → List Nat} {m : Mat}
    (h : PermSupply πs m) (k : Nat) :
    ((shuffleRows πs m).getD k []).length = (m.getD k []).length := by
  by_cases hk : k < m.length
  · rw [shuffleRows_getD hk, List.getD_eq_getElem m [] hk]
    apply applyPerm_length
    have h3 := h k hk
    rwa [List.getD_eq_getElem m [] hk] at h3
  · have hk2 : m.length ≤ k := by omega
    have e1 : (shuffleRows πs m).getD k [] = [] := by
      rw [List.getD_eq_getElem?_getD, List.getElem?_eq_none]
      · rfl
      · rw [shuffleRows_length]; exact hk2
    have e2 : m.getD k [] = [] := by
      rw [List.getD_eq_getElem?_getD, List.getElem?_eq_none hk2]
      rfl
    rw [e1, e2]

/-! ## Gather characterization shared by both accessors -/

theorem gather_result {full : Mat} {sel : List Int} {nc : Nat}
    (hids : ∀ i ∈ sel, 0 ≤ i ∧ i < (full.length : Int))
    (hcol : ∀ row ∈ full, row.length = nc) :
    ∃ res, npGather full sel = some res ∧ res.length = sel.length ∧
      (∀ k, k < sel.length → res[k]? = full[(sel.getD k 0).toNat]?) ∧
      (∀ row ∈ res, row.length = nc) := by
  obtain ⟨res, hres⟩ := npGather_isSome hids
  obtain ⟨hlen, hget⟩ := npGather_spec hres
  refine ⟨res, hres, hlen, ?_, ?_⟩
  · intro k hk
    have hmem : sel.getD k 0 ∈ sel := by
      rw [List.getD_eq_getElem sel 0 hk]
      exact List.getElem_mem hk
    obtain ⟨h0, hlt⟩ := hids _ hmem
    rw [hget k hk, pyIdx_of_nonneg h0 hlt]
  · intro row hrow
    exact hcol row (npGather_rows hres row hrow)

/-! ## Claim C1 — accessors gather selected rows from the cached matrix -/

/-- C1.  With the current plane's trace caches populated and every
selected id in range, `F` and `spikes` return a fresh matrix whose row
`k` is row `selected_id[k]` of the cached full matrix (selection order
preserved, duplicates giving duplicate rows), with exactly
`len(selected_id)` rows and the cached matrix's number of time-columns,
while the state — in particular both caches — is left completely
untouched. -/
theorem trace_accessors_gather_rows (env : Env) (πs : Nat → List Nat)
    (s : Suite2pData) (pF pS : Nat) (fullF fullS : Mat) (sel : List Int)
    (ncF ncS : Nat)
    (hpF : normIdx s.F_cache.length s.plane = some pF)
    (hcF : s.F_cache.getD pF none = some fullF)
    (hpS : normIdx s.spikes_cache.length s.plane = some pS)
    (hcS : s.spikes_cache.getD pS none = some fullS)
    (hsel : pyIdx s.selected_id s.plane = some sel)
    (hidsF : ∀ i ∈ sel, 0 ≤ i ∧ i < (fullF.length : Int))
    (hidsS : ∀ i ∈ sel, 0 ≤ i ∧ i < (fullS.length : Int))
    (hcolF : ∀ row ∈ fullF, row.length = ncF)
    (hcolS : ∀ row ∈ fullS, row.length = ncS)
    (hsh : s.shuffletraces = false) :
    (∃ resF, Fstep env πs s = (some resF, s, false) ∧
      resF.length = sel.length ∧
      (∀ k, k < sel.length → resF[k]? = fullF[(sel.getD k 0).toNat]?) ∧
      (∀ row ∈ resF, row.length = ncF)) ∧
    (∃ resS, spikesStep env πs s = (some resS, s, false) ∧
      resS.length = sel.length ∧
      (∀ k, k < sel.length → resS[k]? = fullS[(sel.getD k 0).toNat]?) ∧
      (∀ row ∈ resS, row.length = ncS)) := by
  obtain ⟨resF, hresF, hlenF, hgetF, hrowF⟩ := gather_result hidsF hcolF
  obtain ⟨resS, hresS, hlenS, hgetS, hrowS⟩ := gather_result hidsS hcolS
  constructor
  · have hl : loadCache s.F_cache env.F_file s.plane =
        some (fullF, s.F_cache, false) := by
      rw [loadCache_eq_some hpF, hcF]
    have hcore := FstepCore_def hl
    have hXX : ({ s with F_cache := s.F_cache } : Suite2pData) = s := rfl
    rw [hXX] at hcore
    have hgath : gatherSel fullF s = some resF := by
      unfold gatherSel
      rw [hsel, Option.some_bind, hresF]
    rw [hgath] at hcore
    refine ⟨resF, ?_, hlenF, hgetF, hrowF⟩
    rw [Fstep_eq hcore, hsh]
    rfl
  · have hl : loadCache s.spikes_cache env.spks_file s.plane =
        some (fullS, s.spikes_cache, false) := by
      rw [loadCache_eq_some hpS, hcS]
    have hcore := spikesStepCore_def hl
    have hXX : ({ s with spikes_cache := s.spikes_cache } : Suite2pData) = s := rfl
    rw [hXX] at hcore
    have hgath : gatherSel fullS s = some resS := by
      unfold gatherSel
      rw [hsel, Option.some_bind, hresS]
    rw [hgath] at hcore
    refine ⟨resS, ?_, hlenS, hgetS, hrowS⟩
    rw [spikesStep_eq hcore, hsh]
    rfl

/-- The state of `sampleState` with both plane-0 trace caches already
populated (as after a first accessor call on plane 0). -/
def sampleLoaded : Suite2pData :=
  { sampleState with
      F_cache := [some [[1,2,3],[4,5,6],[7,8,9]], none]
    , spikes_cache := [some [[0,1,0],[1,0,1],[0,0,1]], none]
    , selected_id := [[2, 0, 2], [0, 1]] }

/-- C1, witness at `sampleLoaded` with the duplicated out-of-order
selection `[2, 0, 2]`. -/
theorem trace_accessors_gather_rows_witness :
    (∃ resF, Fstep sampleEnv samplePerms sampleLoaded =
        (some resF, sampleLoaded, false) ∧
      resF.length = [(2 : Int), 0, 2].length ∧
      (∀ k, k < [(2 : Int), 0, 2].length →
        resF[k]? =
          [[(1:ℚ),2,3],[4,5,6],[7,8,9]][([(2 : Int), 0, 2].getD k 0).toNat]?) ∧
      (∀ row ∈ resF, row.length = 3)) ∧
    (∃ resS, spikesStep sampleEnv samplePerms sampleLoaded =
        (some resS, sampleLoaded, false) ∧
      resS.length = [(2 : Int), 0, 2].length ∧
      (∀ k, k < [(2 : Int), 0, 2].length →
        resS[k]? =
          [[(0:ℚ),1,0],[1,0,1],[0,0,1]][([(2 : Int), 0, 2].getD k 0).toNat]?) ∧
      (∀ row ∈ resS, row.length = 3)) :=
  trace_accessors_gather_rows sampleEnv samplePerms sampleLoaded 0 0
    [[1,2,3],[4,5,6],[7,8,9]] [[0,1,0],[1,0,1],[0,0,1]] [2, 0, 2] 3 3
    (by decide) (by decide) (by decide) (by decide) (by decide)
    (by decide) (by decide) (by decide) (by decide) (by decide)

/-! ## Claim C4 — per-row shuffling of the returned copy only -/

/-- C4.  With `shuffletraces` set, each returned row is a permutation
(same multiset) of the corresponding un-shuffled gathered row, row `k` of
the result depends only on row `k` of the gathered matrix and its own
permutation `πs k` (rows are shuffled independently), and the state — in
particular the per-plane caches, which hold the un-shuffled full
matrices — is exactly the one produced by the load-and-gather step: the
shuffling itself changes no state. -/
theorem shuffle_permutes_rows_cache_intact (env : Env)
    (πs πs' : Nat → List Nat) (s : Suite2pData) (g g' : Mat)
    (s1 s1' : Suite2pData) (l l' : Bool)
    (hsh : s.shuffletraces = true)
    (hF : FstepCore env s = (some g, s1, l))
    (hS : spikesStepCore env s = (some g', s1', l'))
    (hπ : PermSupply πs g) (hπ' : PermSupply πs' g') :
    Fstep env πs s = (some (shuffleRows πs g), s1, l) ∧
    spikesStep env πs' s = (some (shuffleRows πs' g'), s1', l') ∧
    (∀ k, (shuffleRows πs g)[k]? = (g[k]?).map (applyPerm (πs k))) ∧
    (∀ k, (shuffleRows πs' g')[k]? = (g'[k]?).map (applyPerm (πs' k))) ∧
    (∀ k, k < g.length →
      ((shuffleRows πs g).getD k []).Perm (g.getD k [])) ∧
    (∀ k, k < g'.length →
      ((shuffleRows πs' g').getD k []).Perm (g'.getD k [])) := by
  have hfl : s1.shuffletraces = true := by
    rw [(FstepCore_fields hF).2.2.1]
    exact hsh
  have hfl' : s1'.shuffletraces = true := by
    rw [(spikesStepCore_fields hS).2.2.1]
    exact hsh
  refine ⟨?_, ?_, ?_, ?_, ?_, ?_⟩
  · rw [Fstep_eq hF, hfl]
    rfl
  · rw [spikesStep_eq hS, hfl']
    rfl
  · intro k
    exact shuffleRows_getElem? πs g k
  · intro k
    exact shuffleRows_getElem? πs' g' k
  · intro k hk
    exact shuffleRows_row_perm hπ k hk
  · intro k hk
    exact shuffleRows_row_perm hπ' k hk

/-- C4, witness: first `F` and `spikes` calls on `sampleState` with the
shuffle flag set, each row rotated by one step. -/
theorem shuffle_permutes_rows_cache_intact_witness :
    Fstep sampleEnv samplePerms
        { sampleState with shuffletraces := true } =
      (some (shuffleRows samplePerms [[1,2,3],[4,5,6],[7,8,9]]),
       { sampleState with
          shuffletraces := true,
          F_cache := [some [[1,2,3],[4,5,6],[7,8,9]], none] }, true) ∧
    spikesStep sampleEnv samplePerms
        { sampleState with shuffletraces := true } =
      (some (shuffleRows samplePerms [[0,1,0],[1,0,1],[0,0,1]]),
       { sampleState with
          shuffletraces := true,
          spikes_cache := [some [[0,1,0],[1,0,1],[0,0,1]], none] }, true) ∧
    (∀ k, (shuffleRows samplePerms [[(1:ℚ),2,3],[4,5,6],[7,8,9]])[k]? =
      ([[(1:ℚ),2,3],[4,5,6],[7,8,9]][k]?).map (applyPerm (samplePerms k))) ∧
    (∀ k, (shuffleRows samplePerms [[(0:ℚ),1,0],[1,0,1],[0,0,1]])[k]? =
      ([[(0:ℚ),1,0],[1,0,1],[0,0,1]][k]?).map (applyPerm (samplePerms k))) ∧
    (∀ k, k < ([[(1:ℚ),2,3],[4,5,6],[7,8,9]] : Mat).length →
      ((shuffleRows samplePerms [[(1:ℚ),2,3],[4,5,6],[7,8,9]]).getD k []).Perm
        (([[(1:ℚ),2,3],[4,5,6],[7,8,9]] : Mat).getD k [])) ∧
    (∀ k, k < ([[(0:ℚ),1,0],[1,0,1],[0,0,1]] : Mat).length →
      ((shuffleRows samplePerms [[(0:ℚ),1,0],[1,0,1],[0,0,1]]).getD k []).Perm
        (([[(0:ℚ),1,0],[1,0,1],[0,0,1]] : Mat).getD k [])) :=
  shuffle_permutes_rows_cache_intact sampleEnv samplePerms samplePerms
    { sampleState with shuffletraces := true }
    [[1,2,3],[4,5,6],[7,8,9]] [[0,1,0],[1,0,1],[0,0,1]]
    { sampleState with
        shuffletraces := true,
        F_cache := [some [[1,2,3],[4,5,6],[7,8,9]], none] }
    { sampleState with
        shuffletraces := true,
        spikes_cache := [some [[0,1,0],[1,0,1],[0,0,1]], none] }
    true true rfl (by decide) (by decide)
    (by intro ix hix; simp at hix; interval_cases ix <;> decide)
    (by intro ix hix; simp at hix; interval_cases ix <;> decide)

/-! ## Claim C8 — repeated `F` calls: stable cache, stable shape -/

/-- C8.  After a successful `F` call, an immediately repeated call (no
plane or selection change in between) performs no file read, leaves the
state unchanged and gathers the very same un-shuffled matrix; with
`shuffletraces = false` both calls return value-identical matrices, and
with any (valid) shuffling both calls return matrices of identical
shape: same row count and same length for every row. -/
theorem fluorescence_idempotent (env : Env) (πs πs' : Nat → List Nat)
    (s : Suite2pData) (g : Mat) (s1 : Suite2pData) (l : Bool)
    (h1 : FstepCore env s = (some g, s1, l)) :
    FstepCore env s1 = (some g, s1, false) ∧
    (s.shuffletraces = false →
      Fstep env πs s = (some g, s1, l) ∧
      Fstep env πs' s1 = (some g, s1, false)) ∧
    (PermSupply πs g → PermSupply πs' g →
      ∃ r1 r2, Fstep env πs s = (some r1, s1, l) ∧
        Fstep env πs' s1 = (some r2, s1, false) ∧
        r1.length = r2.length ∧
        (∀ k, (r1.getD k []).length = (r2.getD k []).length)) := by
  have hidem := FstepCore_idem h1
  have hfl : s1.shuffletraces = s.shuffletraces := (FstepCore_fields h1).2.2.1
  refine ⟨hidem, ?_, ?_⟩
  · intro hsh
    rw [Fstep_eq h1, Fstep_eq hidem, hfl, hsh]
    exact ⟨rfl, rfl⟩
  · intro hπ hπ'
    cases hb : s1.shuffletraces with
    | false =>
      refine ⟨g, g, ?_, ?_, rfl, fun k => rfl⟩
      · rw [Fstep_eq h1, hb]
        rfl
      · rw [Fstep_eq hidem, hb]
        rfl
    | true =>
      refine ⟨shuffleRows πs g, shuffleRows πs' g, ?_, ?_, ?_, ?_⟩
      · rw [Fstep_eq h1, hb]
        rfl
      · rw [Fstep_eq hidem, hb]
        rfl
      · rw [shuffleRows_length, shuffleRows_length]
      · intro k
        rw [shuffleRows_getD_length hπ k, shuffleRows_getD_length hπ' k]

/-- C8, witness: two consecutive `F` calls on `sampleState` (first call
loads the file, second call hits the cache). -/
theorem fluorescence_idempotent_witness :
    FstepCore sampleEnv
        { sampleState with F_cache := [some [[1,2,3],[4,5,6],[7,8,9]], none] } =
      (some [[1,2,3],[4,5,6],[7,8,9]],
       { sampleState with F_cache := [some [[1,2,3],[4,5,6],[7,8,9]], none] },
       false) ∧
    (sampleState.shuffletraces = false →
      Fstep sampleEnv samplePerms sampleState =
        (some [[1,2,3],[4,5,6],[7,8,9]],
         { sampleState with F_cache := [some [[1,2,3],[4,5,6],[7,8,9]], none] },
         true) ∧
      Fstep sampleEnv samplePerms
          { sampleState with F_cache := [some [[1,2,3],[4,5,6],[7,8,9]], none] } =
        (some [[1,2,3],[4,5,6],[7,8,9]],
         { sampleState with F_cache := [some [[1,2,3],[4,5,6],[7,8,9]], none] },
         false)) ∧
    (PermSupply samplePerms [[1,2,3],[4,5,6],[7,8,9]] →
      PermSupply samplePerms [[1,2,3],[4,5,6],[7,8,9]] →
      ∃ r1 r2, Fstep sampleEnv samplePerms sampleState =
          (some r1,
           { sampleState with F_cache := [some [[1,2,3],[4,5,6],[7,8,9]], none] },
           true) ∧
        Fstep sampleEnv samplePerms
            { sampleState with F_cache := [some [[1,2,3],[4,5,6],[7,8,9]], none] } =
          (some r2,
           { sampleState with F_cache := [some [[1,2,3],[4,5,6],[7,8,9]], none] },
           false) ∧
        r1.length = r2.length ∧
        (∀ k, (r1.getD k []).length = (r2.getD k []).length)) :=
  fluorescence_idempotent sampleEnv samplePerms samplePerms sampleState
    [[1,2,3],[4,5,6],[7,8,9]]
    { sampleState with F_cache := [some [[1,2,3],[4,5,6],[7,8,9]], none] }
    true (by decide)

/-! ## Cache preservation across the public operations -/

theorem select_neurons_caches {s s2 : Suite2pData} {sel : String}
    {t : Option ℚ} (h : select_neurons s sel t = some s2) :
    s2.F_cache = s.F_cache ∧ s2.spikes_cache = s.spikes_cache := by
  by_cases h1 : sel = "iscell"
  · subst h1
    rw [select_neurons_iscell] at h
    cases htbl : pyIdx s.iscell s.plane with
    | none => rw [htbl, Option.none_bind] at h; exact absurd h (by simp)
    | some tbl =>
      rw [htbl, Option.some_bind] at h
      have hf := setNeurons_fields h
      exact ⟨hf.2.1, hf.2.2.1⟩
  · by_cases h2 : sel = "isnotcell"
    · subst h2
      rw [select_neurons_isnotcell] at h
      cases htbl : pyIdx s.iscell s.plane with
      | none => rw [htbl, Option.none_bind] at h; exact absurd h (by simp)
      | some tbl =>
        rw [htbl, Option.some_bind] at h
        have hf := setNeurons_fields h
        exact ⟨hf.2.1, hf.2.2.1⟩
    · by_cases h3 : sel = "iscell_p_larger_than"
      · subst h3
        rw [select_neurons_larger] at h
        cases t with
        | none => rw [Option.none_bind] at h; exact absurd h (by simp)
        | some t2 =>
          rw [Option.some_bind] at h
          cases htbl : pyIdx s.iscell s.plane with
          | none => rw [htbl, Option.none_bind] at h; exact absurd h (by simp)
          | some tbl =>
            rw [htbl, Option.some_bind] at h
            have hf := setNeurons_fields h
            exact ⟨hf.2.1, hf.2.2.1⟩
      · by_cases h4 : sel = "iscell_p_smaller_than"
        · subst h4
          rw [select_neurons_smaller] at h
          cases t with
          | none => rw [Option.none_bind] at h; exact absurd h (by simp)
          | some t2 =>
            rw [Option.some_bind] at h
            cases htbl : pyIdx s.iscell s.plane with
            | none => rw [htbl, Option.none_bind] at h; exact absurd h (by simp)
            | some tbl =>
              rw [htbl, Option.some_bind] at h
              have hf := setNeurons_fields h
              exact ⟨hf.2.1, hf.2.2.1⟩
        · rw [select_neurons_unrecognized s sel t h1 h2 h3 h4] at h
          have hss : s = s2 := Option.some_inj.mp h
          subst hss
          exact ⟨rfl, rfl⟩

theorem runOp_F_cache_mono (env : Env) (πs : Nat → List Nat)
    (s : Suite2pData) (op : Op) {q : Nat} {m : Mat}
    (h : s.F_cache.getD q none = some m) :
    (runOp env πs s op).1.F_cache.getD q none = some m := by
  cases op with
  | getF =>
    rcases hcore : FstepCore env s with ⟨r, s1, l⟩
    have hF := @Fstep_eq env πs s r s1 l hcore
    simp only [runOp, hF]
    rcases FstepCore_inv hcore with ⟨_, _, rfl, _⟩ | ⟨full, c, hl, rfl, _⟩
    · exact h
    · exact loadCache_mono hl h
  | getSpikes =>
    rcases hcore : spikesStepCore env s with ⟨r, s1, l⟩
    have hS := @spikesStep_eq env πs s r s1 l hcore
    simp only [runOp, hS]
    rw [(spikesStepCore_fields hcore).2.2.2.1]
    exact h
  | opSetPlane i => exact h
  | opSetNeurons sel2 =>
    simp only [runOp]
    cases hs : setNeurons s sel2 with
    | none => simpa using h
    | some s2 =>
      have hf := setNeurons_fields hs
      simp only [Option.getD_some]
      rw [hf.2.1]
      exact h
  | opSelectNeurons sel2 t2 =>
    simp only [runOp]
    cases hs : select_neurons s sel2 t2 with
    | none => simpa using h
    | some s2 =>
      have hf := select_neurons_caches hs
      simp only [Option.getD_some]
      rw [hf.1]
      exact h
  | opSetShuffle b => exact h

theorem runOp_spikes_cache_mono (env : Env) (πs : Nat → List Nat)
    (s : Suite2pData) (op : Op) {q : Nat} {m : Mat}
    (h : s.spikes_cache.getD q none = some m) :
    (runOp env πs s op).1.spikes_cache.getD q none = some m := by
  cases op with
  | getF =>
    rcases hcore : FstepCore env s with ⟨r, s1, l⟩
    have hF := @Fstep_eq env πs s r s1 l hcore
    simp only [runOp, hF]
    rw [(FstepCore_fields hcore).2.2.2.1]
    exact h
  | getSpikes =>
    rcases hcore : spikesStepCore env s with ⟨r, s1, l⟩
    have hS := @spikesStep_eq env πs s r s1 l hcore
    simp only [runOp, hS]
    rcases spikesStepCore_inv hcore with ⟨_, _, rfl, _⟩ | ⟨full, c, hl, rfl, _⟩
    · exact h
    · exact loadCache_mono hl h
  | opSetPlane i => exact h
  | opSetNeurons sel2 =>
    simp only [runOp]
    cases hs : setNeurons s sel2 with
    | none => simpa using h
    | some s2 =>
      have hf := setNeurons_fields hs
      simp only [Option.getD_some]
      rw [hf.2.2.1]
      exact h
  | opSelectNeurons sel2 t2 =>
    simp only [runOp]
    cases hs : select_neurons s sel2 t2 with
    | none => simpa using h
    | some s2 =>
      have hf := select_neurons_caches hs
      simp only [Option.getD_some]
      rw [hf.2]
      exact h
  | opSetShuffle b => exact h

theorem runOp_F_load (env : Env) (πs : Nat → List Nat) (s : Suite2pData)
    (op : Op) (q : Nat) (h : (runOp env πs s op).2.1 = some q) :
    s.F_cache.getD q none = none ∧
    ((runOp env πs s op).1.F_cache.getD q none).isSome := by
  cases op with
  | getF =>
    rcases hcore : FstepCore env s with ⟨r, s1, l⟩
    have hF := @Fstep_eq env πs s r s1 l hcore
    simp only [runOp, hF] at h ⊢
    cases l with
    | false => exact absurd h (by simp)
    | true =>
      simp only [if_true] at h
      rcases FstepCore_inv hcore with ⟨_, _, _, hlf⟩ | ⟨full, c, hl, rfl, _⟩
      · exact absurd hlf (by simp)
      · obtain ⟨p, hn, hlen, hcp, hbr⟩ := loadCache_cases hl
        have hpq : p = q := by
          rw [hn] at h
          exact Option.some_inj.mp h
        subst hpq
        rcases hbr with ⟨hfalse, _, _⟩ | ⟨_, hnone, _, _⟩
        · exact absurd hfalse (by simp)
        · exact ⟨hnone, by rw [hcp]; rfl⟩
  | getSpikes => exact absurd h (by simp [runOp])
  | opSetPlane i => exact absurd h (by simp [runOp])
  | opSetNeurons sel2 => exact absurd h (by simp [runOp])
  | opSelectNeurons sel2 t2 => exact absurd h (by simp [runOp])
  | opSetShuffle b => exact absurd h (by simp [runOp])

theorem runOp_spikes_load (env : Env) (πs : Nat → List Nat)
    (s : Suite2pData) (op : Op) (q : Nat)
    (h : (runOp env πs s op).2.2 = some q) :
    s.spikes_cache.getD q none = none ∧
    ((runOp env πs s op).1.spikes_cache.getD q none).isSome := by
  cases op with
  | getSpikes =>
    rcases hcore : spikesStepCore env s with ⟨r, s1, l⟩
    have hS := @spikesStep_eq env πs s r s1 l hcore
    simp only [runOp, hS] at h ⊢
    cases l with
    | false => exact absurd h (by simp)
    | true =>
      simp only [if_true] at h
      rcases spikesStepCore_inv hcore with ⟨_, _, _, hlf⟩ | ⟨full, c, hl, rfl, _⟩
      · exact absurd hlf (by simp)
      · obtain ⟨p, hn, hlen, hcp, hbr⟩ := loadCache_cases hl
        have hpq : p = q := by
          rw [hn] at h
          exact Option.some_inj.mp h
        subst hpq
        rcases hbr with ⟨hfalse, _, _⟩ | ⟨_, hnone, _, _⟩
        · exact absurd hfalse (by simp)
        · exact ⟨hnone, by rw [hcp]; rfl⟩
  | getF => exact absurd h (by simp [runOp])
  | opSetPlane i => exact absurd h (by simp [runOp])
  | opSetNeurons sel2 => exact absurd h (by simp [runOp])
  | opSelectNeurons sel2 t2 => exact absurd h (by simp [runOp])
  | opSetShuffle b => exact absurd h (by simp [runOp])

theorem countFLoads_zero (env : Env) (πs : Nat → List Nat)
    (s : Suite2pData) (ops : List Op) (p : Nat) (m : Mat)
    (h : s.F_cache.getD p none = some m) :
    countFLoads env πs s ops p = 0 := by
  induction ops generalizing s m with
  | nil => rfl
  | cons op rest ih =>
    unfold countFLoads
    have hne : (runOp env πs s op).2.1 ≠ some p := by
      intro hload
      have h0 := (runOp_F_load env πs s op p hload).1
      rw [h] at h0
      exact absurd h0 (by simp)
    rw [if_neg hne, ih _ _ (runOp_F_cache_mono env πs s op h)]

theorem countSpikeLoads_zero (env : Env) (πs : Nat → List Nat)
    (s : Suite2pData) (ops : List Op) (p : Nat) (m : Mat)
    (h : s.spikes_cache.getD p none = some m) :
    countSpikeLoads env πs s ops p = 0 := by
  induction ops generalizing s m with
  | nil => rfl
  | cons op rest ih =>
    unfold countSpikeLoads
    have hne : (runOp env πs s op).2.2 ≠ some p := by
      intro hload
      have h0 := (runOp_spikes_load env πs s op p hload).1
      rw [h] at h0
      exact absurd h0 (by simp)
    rw [if_neg hne, ih _ _ (runOp_spikes_cache_mono env πs s op h)]

/-! ## Claim C2 — each plane's trace file is read at most once -/

/-- C2.  Along any sequence of public operations (trace accessors, plane
changes, selection changes, shuffle-flag changes) the `F.npy` file of a
given plane is read at most once, and likewise `spks.npy` — the first
accessor call for a plane with an empty cache entry performs the read
(last two conjuncts), and once the entry is populated no operation ever
reads that plane's file again. -/
theorem trace_load_at_most_once (env : Env) (πs : Nat → List Nat)
    (s : Suite2pData) (ops : List Op) (p : Nat) :
    countFLoads env πs s ops p ≤ 1 ∧ countSpikeLoads env πs s ops p ≤ 1 ∧
    (normIdx s.F_cache.length s.plane = some p →
      s.F_cache.getD p none = none →
      (runOp env πs s Op.getF).2.1 = some p) ∧
    (normIdx s.spikes_cache.length s.plane = some p →
      s.spikes_cache.getD p none = none →
      (runOp env πs s Op.getSpikes).2.2 = some p) := by
  refine ⟨?_, ?_, ?_, ?_⟩
  · induction ops generalizing s with
    | nil => simp [countFLoads]
    | cons op rest ih =>
      unfold countFLoads
      by_cases hload : (runOp env πs s op).2.1 = some p
      · rw [if_pos hload]
        obtain ⟨m, hm⟩ := Option.isSome_iff_exists.mp
          (runOp_F_load env πs s op p hload).2
        rw [countFLoads_zero env πs _ rest p m hm]
      · rw [if_neg hload]
        simpa using ih _
  · induction ops generalizing s with
    | nil => simp [countSpikeLoads]
    | cons op rest ih =>
      unfold countSpikeLoads
      by_cases hload : (runOp env πs s op).2.2 = some p
      · rw [if_pos hload]
        obtain ⟨m, hm⟩ := Option.isSome_iff_exists.mp
          (runOp_spikes_load env πs s op p hload).2
        rw [countSpikeLoads_zero env πs _ rest p m hm]
      · rw [if_neg hload]
        simpa using ih _
  · intro hn hc
    have hl : loadCache s.F_cache env.F_file s.plane =
        some (env.F_file p, s.F_cache.set p (some (env.F_file p)), true) := by
      rw [loadCache_eq_some hn, hc]
    have hcore := FstepCore_def hl
    have hF := @Fstep_eq env πs s _ _ _ hcore
    simp [runOp, hF, hn]
  · intro hn hc
    have hl : loadCache s.spikes_cache env.spks_file s.plane =
        some (env.spks_file p, s.spikes_cache.set p (some (env.spks_file p)),
          true) := by
      rw [loadCache_eq_some hn, hc]
    have hcore := spikesStepCore_def hl
    have hS := @spikesStep_eq env πs s _ _ _ hcore
    simp [runOp, hS, hn]

/-- C2, witness: three consecutive `F` reads (with interleaved plane
switches) load plane 0's file exactly once, and the very first accessor
call on the empty caches does perform the load. -/
theorem trace_load_at_most_once_witness :
    countFLoads sampleEnv samplePerms sampleState
      [Op.getF, Op.getF, Op.opSetPlane 1, Op.getF, Op.opSetPlane 0, Op.getF]
      0 ≤ 1 ∧
    countSpikeLoads sampleEnv samplePerms sampleState
      [Op.getSpikes, Op.getSpikes, Op.getF, Op.getSpikes] 0 ≤ 1 ∧
    (runOp sampleEnv samplePerms sampleState Op.getF).2.1 = some 0 ∧
    (runOp sampleEnv samplePerms sampleState Op.getSpikes).2.2 = some 0 :=
  ⟨(trace_load_at_most_once sampleEnv samplePerms sampleState
      [Op.getF, Op.getF, Op.opSetPlane 1, Op.getF, Op.opSetPlane 0, Op.getF]
      0).1,
   (trace_load_at_most_once sampleEnv samplePerms sampleState
      [Op.getSpikes, Op.getSpikes, Op.getF, Op.getSpikes] 0).2.1,
   (trace_load_at_most_once sampleEnv samplePerms sampleState [] 0).2.2.1
      (by decide) (by decide),
   (trace_load_at_most_once sampleEnv samplePerms sampleState [] 0).2.2.2
      (by decide) (by decide)⟩

end Suite2p
